import Mathlib

/-!
Verification of the Site Selection Engine
(models/scoring.py, models/location_analysis.py, models/huff_model.py).

Python floats are modelled as exact rationals (`ℚ`) where only field
arithmetic and comparisons occur, and as reals (`ℝ`) where square roots,
trigonometry or real powers occur.  Python `dict.get(key, default)` is
modelled by `Option` fields with `Option.getD`.  Operations that can raise
a Python exception are modelled in `Except String`.
-/

/-! ## models/scoring.py : SiteSelectionScoring -/

/-- A value read from the ad-hoc location-data dictionary: either a numeric
entry (Python int/float, modelled as a rational) or a non-numeric entry
(the `isinstance(nivel_socioeconomico, (int, float))` test in
`_calculate_socioeconomico_score` distinguishes exactly these two cases). -/
inductive PyVal where
  | num : ℚ → PyVal
  | other : PyVal
deriving DecidableEq

/-- The location-data dictionary passed to `SiteSelectionScoring.calculate_score`,
restricted to the keys the scorer actually reads.  A `none` field models a
missing key; each access site supplies the source's `dict.get` default. -/
structure LocationData where
  poblacion_total : Option ℚ := none
  poblacion_alcanzable : Option ℚ := none
  trafico_peatonal : Option ℚ := none
  trafico_vehicular : Option ℚ := none
  competidores_cercanos : Option ℚ := none
  distancia_zona_comercial : Option ℚ := none
  nivel_socioeconomico : Option PyVal := none
  estrato_promedio : Option ℚ := none
  densidad_comercial : Option ℚ := none
deriving DecidableEq

/-- The five scoring weights held in `SiteSelectionScoring.weights`. -/
structure ScoringWeights where
  poblacion : ℚ
  trafico : ℚ
  competencia_zona_comercial : ℚ
  nivel_socioeconomico : ℚ
  densidad_comercial : ℚ
deriving DecidableEq

/-- Sum of the five stored weights (`sum(self.weights.values())`). -/
def ScoringWeights.total (w : ScoringWeights) : ℚ :=
  w.poblacion + w.trafico + w.competencia_zona_comercial +
    w.nivel_socioeconomico + w.densidad_comercial

/-- The default weights of `SiteSelectionScoring.__init__`. -/
def defaultWeights : ScoringWeights :=
  ⟨35/100, 30/100, 15/100, 12/100, 8/100⟩

/-- Dividing every stored weight by the stored total
(the dict comprehension in `SiteSelectionScoring.__init__`). -/
def ScoringWeights.divByTotal (w : ScoringWeights) : ScoringWeights :=
  ⟨w.poblacion / w.total, w.trafico / w.total,
   w.competencia_zona_comercial / w.total,
   w.nivel_socioeconomico / w.total, w.densidad_comercial / w.total⟩

/-- `SiteSelectionScoring.__init__`: take the caller's weights (or the
defaults when `custom_weights` is `None`), and renormalize once, at
construction, when the total differs from 1.0 by more than 0.01.  The result
is the `self.weights` state every later call reads. -/
def initWeights (custom : Option ScoringWeights) : ScoringWeights :=
  let w := custom.getD defaultWeights
  if 1/100 < |w.total - 1| then w.divByTotal else w

/-- `SiteSelectionScoring._calculate_poblacion_score`. -/
def calculate_poblacion_score (d : LocationData) : ℚ :=
  let poblacion_total := d.poblacion_total.getD 0
  let poblacion_alcanzable := d.poblacion_alcanzable.getD 0
  let poblacion_norm := min 100 (poblacion_alcanzable / 200000 * 100)
  let poblacion_total_norm := min 50 (poblacion_total / 200000 * 50)
  poblacion_norm * (7/10) + poblacion_total_norm * (3/10)

/-- `SiteSelectionScoring._calculate_trafico_score`. -/
def calculate_trafico_score (d : LocationData) : ℚ :=
  let tp := d.trafico_peatonal.getD 0
  let tv := d.trafico_vehicular.getD 0
  let proxied : ℚ × ℚ :=
    if tp = 0 ∧ tv = 0 then
      let dc := d.distancia_zona_comercial.getD 999
      if dc < 1 then (80, 70) else if dc < 2 then (60, 60) else (40, 50)
    else (tp, tv)
  proxied.1 * (6/10) + proxied.2 * (4/10)

/-- `SiteSelectionScoring._calculate_competencia_score`. -/
def calculate_competencia_score (d : LocationData) : ℚ :=
  let comp := d.competidores_cercanos.getD 0
  let dc := d.distancia_zona_comercial.getD 999
  let competencia_norm := max 0 (100 - comp * 20)
  let zona_norm := if 5 ≤ dc then 0 else max 0 (100 - dc * 20)
  if dc < 1 ∧ comp < 2 then 100
  else if dc < 2 ∧ comp < 3 then 80
  else competencia_norm * (6/10) + zona_norm * (4/10)

/-- `SiteSelectionScoring._calculate_socioeconomico_score`. -/
def calculate_socioeconomico_score (d : LocationData) : ℚ :=
  match d.nivel_socioeconomico.getD (PyVal.num 50) with
  | PyVal.num x => min 100 (max 0 x)
  | PyVal.other => d.estrato_promedio.getD 3 / 6 * 100

/-- `SiteSelectionScoring._calculate_densidad_score`. -/
def calculate_densidad_score (d : LocationData) : ℚ :=
  let dens0 := d.densidad_comercial.getD 0
  let dens := if dens0 = 0 then d.competidores_cercanos.getD 0 * 5 else dens0
  min 100 (dens / 50 * 100)

/-- `SiteSelectionScoring.calculate_score`: weighted combination of the five
sub-scores using the stored weights, clamped to [0, 100].  No renormalization
happens here; the weights argument is the state produced by `initWeights`. -/
def calculate_score (w : ScoringWeights) (d : LocationData) : ℚ :=
  let total :=
    calculate_poblacion_score d * w.poblacion +
    calculate_trafico_score d * w.trafico +
    calculate_competencia_score d * w.competencia_zona_comercial +
    calculate_socioeconomico_score d * w.nivel_socioeconomico +
    calculate_densidad_score d * w.densidad_comercial
  min 100 (max 0 total)

/-- `SiteSelectionScoring.rank_locations` (value level): score every row,
sort by score descending, then attach the dense ranking column
`range(1, len(df) + 1)`.  Each output row is ((data, score), ranking). -/
def rank_locations (w : ScoringWeights) (lst : List LocationData) :
    List ((LocationData × ℚ) × ℕ) :=
  let scored := lst.map (fun d => (d, calculate_score w d))
  let sorted := scored.mergeSort (fun a b => decide (b.2 ≤ a.2))
  sorted.zip (List.range' 1 sorted.length)

/-! ## Claim C1 (poblacion sub-score at 200000/200000) -/

/-- The C1 scenario record: `poblacion_alcanzable = 200000`,
`poblacion_total = 200000`. -/
def locC1 : LocationData :=
  { poblacion_total := some 200000, poblacion_alcanzable := some 200000 }

/-- C1 counterexample: with `poblacion_alcanzable = 200000` and
`poblacion_total = 200000` the poblacion sub-score computed by the scorer is
85, not 100 — the claimed formula caps the total-population part at 50, so
the weighted sum is 0.7·100 + 0.3·50 = 85. -/
theorem C1_counterexample :
    calculate_poblacion_score locC1 = 85 ∧ (85 : ℚ) ≠ 100 := by
  refine ⟨?_, by norm_num⟩
  simp only [calculate_poblacion_score, locC1, Option.getD_some]
  norm_num

/-- C1 amended: with `poblacion_alcanzable = 200000` and `poblacion_total =
200000` the poblacion sub-score equals 70% × min(100, 200000/200000×100) +
30% × min(50, 200000/200000×50), which is 85 (not 100). -/
theorem C1_amended :
    calculate_poblacion_score locC1 =
      min 100 ((200000 : ℚ) / 200000 * 100) * (7/10) +
        min 50 ((200000 : ℚ) / 200000 * 50) * (3/10) ∧
    calculate_poblacion_score locC1 = 85 := by
  constructor
  · simp only [calculate_poblacion_score, locC1, Option.getD_some]
  · simp only [calculate_poblacion_score, locC1, Option.getD_some]
    norm_num

/-! ## Claim C6 (socioeconomic sub-score) -/

/-- The C6 counterexample record: a numeric `nivel_socioeconomico` of 150
(not a 0-100 score) together with `estrato_promedio = 3`. -/
def locC6 : LocationData :=
  { nivel_socioeconomico := some (PyVal.num 150), estrato_promedio := some 3 }

/-- C6 counterexample: for a numeric `nivel_socioeconomico` of 150 — a value
that is not a 0-100 score — the code clamps it to 100 rather than falling
back to `estrato_promedio/6×100 = 50` as the claim requires. -/
theorem C6_counterexample :
    calculate_socioeconomico_score locC6 = 100 ∧
    (3 : ℚ) / 6 * 100 = 50 ∧ (100 : ℚ) ≠ 50 := by
  refine ⟨?_, by norm_num, by norm_num⟩
  simp only [calculate_socioeconomico_score, locC6, Option.getD_some]
  norm_num

/-- C6 amended: a numeric `nivel_socioeconomico` is passed through clamped to
[0,100] (so a value already in the 0-100 range is passed through unchanged),
and the `estrato_promedio/6×100` fallback applies exactly when the stored
value is non-numeric. -/
theorem C6_amended :
    (∀ (d : LocationData) (x : ℚ), d.nivel_socioeconomico = some (PyVal.num x) →
      calculate_socioeconomico_score d = min 100 (max 0 x)) ∧
    (∀ (d : LocationData) (x : ℚ), d.nivel_socioeconomico = some (PyVal.num x) →
      0 ≤ x → x ≤ 100 → calculate_socioeconomico_score d = x) ∧
    (∀ d : LocationData, d.nivel_socioeconomico = some PyVal.other →
      calculate_socioeconomico_score d = d.estrato_promedio.getD 3 / 6 * 100) := by
  refine ⟨?_, ?_, ?_⟩
  · intro d x h
    simp [calculate_socioeconomico_score, h]
  · intro d x h h0 h100
    simp [calculate_socioeconomico_score, h, max_eq_right h0, min_eq_right h100]
  · intro d h
    simp [calculate_socioeconomico_score, h]

/-- Record with an in-range numeric socioeconomic score, for the C6 witness. -/
def locC6w1 : LocationData := { nivel_socioeconomico := some (PyVal.num 42) }

/-- Record with a non-numeric socioeconomic entry, for the C6 witness. -/
def locC6w2 : LocationData :=
  { nivel_socioeconomico := some PyVal.other, estrato_promedio := some (9/2) }

/-- C6 witness: the amended rules evaluated at concrete records — an in-range
numeric value 42 passes through, and a non-numeric entry with
`estrato_promedio = 4.5` yields 4.5/6×100 = 75. -/
theorem C6_witness :
    calculate_socioeconomico_score locC6w1 = 42 ∧
    calculate_socioeconomico_score locC6w2 = 75 := by
  constructor
  · exact C6_amended.2.1 locC6w1 42 rfl (by norm_num) (by norm_num)
  · have h := C6_amended.2.2 locC6w2 rfl
    rw [h]
    norm_num [locC6w2]

/-! ## Claim C7 (weight renormalization at construction) -/

/-- Construction leaves weights whose total is already exactly 1 untouched. -/
theorem initWeights_of_total_one (v : ScoringWeights) (hv : v.total = 1) :
    initWeights (some v) = v := by
  simp only [initWeights, Option.getD_some, hv]
  rw [if_neg (by norm_num)]

/-- C7: when the caller-supplied weights total differs from 1 by more than
0.01, construction stores each weight divided by the total; the stored
weights then total exactly 1 (hence within 1e-9 of 1), and re-running the
construction-time normalization on the stored weights changes nothing — the
renormalization happens exactly once, at construction. -/
theorem C7_normalization (w : ScoringWeights)
    (h : 1/100 < |w.total - 1|) (h0 : w.total ≠ 0) :
    initWeights (some w) = w.divByTotal ∧
    (initWeights (some w)).total = 1 ∧
    |(initWeights (some w)).total - 1| ≤ 1/1000000000 ∧
    initWeights (some (initWeights (some w))) = initWeights (some w) := by
  have hsel : initWeights (some w) = w.divByTotal := by
    simp only [initWeights, Option.getD_some, if_pos h]
  have hsum : (initWeights (some w)).total = 1 := by
    rw [hsel]
    simp only [ScoringWeights.divByTotal, ScoringWeights.total]
    rw [div_add_div_same, div_add_div_same, div_add_div_same, div_add_div_same]
    exact div_self (by simpa [ScoringWeights.total] using h0)
  exact ⟨hsel, hsum, by rw [hsum]; norm_num,
    initWeights_of_total_one (initWeights (some w)) hsum⟩

/-- The C7 witness weights: they total 0.8, off from 1.0 by more than 0.01. -/
def weightsC7 : ScoringWeights := ⟨35/100, 30/100, 15/100, 0, 0⟩

/-- C7 witness: weights totalling 0.8 are rescaled at construction so the
stored weights total exactly 1, within the claimed 1e-9. -/
theorem C7_witness :
    (initWeights (some weightsC7)).total = 1 ∧
    |(initWeights (some weightsC7)).total - 1| ≤ 1/1000000000 := by
  have h1 : (1:ℚ)/100 < |weightsC7.total - 1| := by
    have : weightsC7.total = 4/5 := by norm_num [ScoringWeights.total, weightsC7]
    rw [this, show (4:ℚ)/5 - 1 = -(1/5) by norm_num, abs_neg, abs_of_nonneg (by norm_num)]
    norm_num
  have h0 : weightsC7.total ≠ 0 := by
    norm_num [ScoringWeights.total, weightsC7]
  obtain ⟨-, hs, hb, -⟩ := C7_normalization weightsC7 h1 h0
  exact ⟨hs, hb⟩

/-! ## Claim C8 (rank_locations) -/

/-- C8: `rank_locations` computes the score of every candidate (the output
rows carry exactly the batch's (candidate, score) pairs, as a permutation),
the output is sorted in descending order of score, and the ranking column is
the dense sequence 1..N attached to the fully scored, sorted batch. -/
theorem C8_rank_locations (w : ScoringWeights) (lst : List LocationData) :
    ((rank_locations w lst).map Prod.fst).Perm
        (lst.map (fun d => (d, calculate_score w d))) ∧
    ((rank_locations w lst).map (fun r => r.1.2)).Sorted (fun a b => b ≤ a) ∧
    (rank_locations w lst).map Prod.snd = List.range' 1 lst.length := by
  set scored := lst.map (fun d => (d, calculate_score w d)) with hscored
  set sorted := scored.mergeSort (fun a b => decide (b.2 ≤ a.2)) with hsorted
  have hperm : sorted.Perm scored := List.mergeSort_perm scored _
  have hlen : sorted.length = lst.length := by
    rw [hperm.length_eq, hscored, List.length_map]
  have hzfst : (sorted.zip (List.range' 1 sorted.length)).map Prod.fst = sorted :=
    List.map_fst_zip _ _ (by rw [List.length_range'])
  have hzsnd : (sorted.zip (List.range' 1 sorted.length)).map Prod.snd =
      List.range' 1 sorted.length :=
    List.map_snd_zip _ _ (by rw [List.length_range'])
  have hrl : rank_locations w lst = sorted.zip (List.range' 1 sorted.length) := rfl
  refine ⟨?_, ?_, ?_⟩
  · rw [hrl, hzfst]
    exact hperm
  · rw [hrl]
    have hmap : ((sorted.zip (List.range' 1 sorted.length)).map (fun r => r.1.2)) =
        sorted.map (fun a => a.2) := by
      have h1 : ((sorted.zip (List.range' 1 sorted.length)).map Prod.fst).map
          (fun a : LocationData × ℚ => a.2) =
          (sorted.zip (List.range' 1 sorted.length)).map (fun r => r.1.2) := by
        rw [List.map_map]
        rfl
      rw [← h1, hzfst]
    rw [hmap]
    have htrans : ∀ a b c : LocationData × ℚ,
        (decide (b.2 ≤ a.2)) = true → (decide (c.2 ≤ b.2)) = true →
        (decide (c.2 ≤ a.2)) = true := by
      intro a b c hab hbc
      simp only [decide_eq_true_eq] at hab hbc ⊢
      exact le_trans hbc hab
    have htotal : ∀ a b : LocationData × ℚ,
        ((decide (b.2 ≤ a.2)) || (decide (a.2 ≤ b.2))) = true := by
      intro a b
      simpa using le_total b.2 a.2
    have hp := @List.sorted_mergeSort (LocationData × ℚ)
      (fun a b => decide (b.2 ≤ a.2)) htrans htotal scored
    rw [List.Sorted, List.pairwise_map]
    exact hp.imp (fun h => by simpa using h)
  · rw [hrl, hzsnd, hlen]

/-! ## models/huff_model.py : HuffModel -/

noncomputable section

/-- Python float division: raises `ZeroDivisionError` on a zero denominator,
modelled as an `Except.error`. -/
def pydiv (a b : ℝ) : Except String ℝ :=
  if b = 0 then Except.error "ZeroDivisionError" else Except.ok (a / b)

/-- Monadic bind on `Except` after a successful value is plain application. -/
@[simp] theorem exceptBind_ok {α β : Type} (x : α) (f : α → Except String β) :
    (Except.ok x >>= f) = f x := rfl

/-- Monadic bind on `Except` propagates an error. -/
@[simp] theorem exceptBind_error {α β : Type} (e : String)
    (f : α → Except String β) :
    ((Except.error e : Except String α) >>= f) = Except.error e := rfl

/-- One entry of the competitor list consumed by `calculate_probability`: a
dict with optional keys `size` and `distance` (a `none` field models a
missing key). -/
structure CompEntry where
  size : Option ℝ := none
  distance : Option ℝ := none

/-- One competitor term of the denominator loop of `calculate_probability`:
missing `distance` defaults to 999, a distance of exactly 0 is floored to
0.001, missing `size` defaults to 0.5, and the term is
`size**alpha / distance**beta`.  Python float `**` is modelled by the real
power `Real.rpow`; the theorems below instantiate it only where the Python
power is defined and real-valued. -/
def compTerm (alpha beta : ℝ) (comp : CompEntry) : Except String ℝ :=
  let cd0 := comp.distance.getD 999
  let cd := if cd0 = 0 then 1/1000 else cd0
  let cs := comp.size.getD (1/2)
  pydiv (cs ^ alpha) (cd ^ beta)

/-- `HuffModel.calculate_probability` for a model with exponents
`alpha`, `beta`: the store's own zero distance is floored to 0.001, its
attractiveness is `store_size**alpha / distance**beta`, every competitor
adds its `compTerm`, and the result is attractiveness over the total (0 when
the total is 0). -/
def calculate_probability (alpha beta : ℝ) (store_size distance : ℝ)
    (competitors : List CompEntry) : Except String ℝ := do
  let d := if distance = 0 then 1/1000 else distance
  let attractiveness ← pydiv (store_size ^ alpha) (d ^ beta)
  let total ← competitors.foldlM (fun acc comp => do
    let t ← compTerm alpha beta comp
    pure (acc + t)) attractiveness
  if total = 0 then pure 0 else pydiv attractiveness total

/-- Degrees to radians (`math.radians`). -/
def radians (x : ℝ) : ℝ := x * Real.pi / 180

/-- `HuffModel._haversine_distance` with Earth radius 6371 km.  Python's
`math.asin` raises outside [-1, 1] where `Real.arcsin` clamps; the theorems
only evaluate it where the argument is in range. -/
def haversine_distance (p1 p2 : ℝ × ℝ) : ℝ :=
  let lat1 := radians p1.1
  let lon1 := radians p1.2
  let lat2 := radians p2.1
  let lon2 := radians p2.2
  let dlat := lat2 - lat1
  let dlon := lon2 - lon1
  let a := Real.sin (dlat/2) ^ 2 +
    Real.cos lat1 * Real.cos lat2 * Real.sin (dlon/2) ^ 2
  let c := 2 * Real.arcsin (Real.sqrt a)
  c * 6371

/-- A competitor record for `calculate_market_share` / `analyze_location`:
`location` is `some (lat, lng)` for the dict/tuple cases the source accepts
and `none` for the malformed case it skips with `continue`; `size` is the
optional `size` key. -/
structure Competitor where
  location : Option (ℝ × ℝ) := none
  size : Option ℝ := none

/-- The per-demand-point competitor distance/size list built by the inner
loop of `calculate_market_share`: competitors without a usable location are
skipped, the rest get their haversine distance to the demand point and their
size (default 0.5). -/
def competitorDistances (dp : ℝ × ℝ) (competitors : List Competitor) :
    List CompEntry :=
  competitors.filterMap (fun comp =>
    comp.location.map (fun loc =>
      { size := some (comp.size.getD (1/2)),
        distance := some (haversine_distance dp loc) }))

/-- `HuffModel.calculate_market_share`: accumulate, over the demand points,
the Huff probability times the point's demand weight.  The source indexes
`demand_weights[i]` in lockstep with `demand_points`; the parallel arrays
are modelled as a zip (the theorems quantify over equal-length arrays). -/
def calculate_market_share (alpha beta : ℝ) (location : ℝ × ℝ)
    (store_size : ℝ) (demand_points : List (ℝ × ℝ)) (demand_weights : List ℝ)
    (competitors : List Competitor) : Except String ℝ :=
  (demand_points.zip demand_weights).foldlM (fun acc dpw => do
    let dist := haversine_distance dpw.1 location
    let p ← calculate_probability alpha beta store_size dist
      (competitorDistances dpw.1 competitors)
    pure (acc + p * dpw.2)) 0

/-- The result record of `HuffModel.analyze_location`. -/
structure AnalyzeResult where
  market_share : ℝ
  reachable_population : ℝ
  avg_competitor_distance : ℝ
  huff_score : ℝ

/-- `HuffModel.analyze_location`: the market share, the demand weight within
10 km (haversine), the mean haversine distance to the usable competitors
(sentinel 999.0 when there are none), and
`huff_score = market_share / max(reachable_population, 1) * 100` (the
divisor is at least 1, so this division cannot raise). -/
def analyze_location (alpha beta : ℝ) (location : ℝ × ℝ) (store_size : ℝ)
    (demand_points : List (ℝ × ℝ)) (demand_weights : List ℝ)
    (competitors : List Competitor) : Except String AnalyzeResult := do
  let ms ← calculate_market_share alpha beta location store_size demand_points
    demand_weights competitors
  let reachable := ((demand_points.zip demand_weights).map (fun dpw =>
    if haversine_distance dpw.1 location ≤ 10 then dpw.2 else 0)).sum
  let ds := competitors.filterMap (fun comp =>
    comp.location.map (fun loc => haversine_distance location loc))
  let avg := if ds = [] then (999 : ℝ) else ds.sum / ds.length
  pure { market_share := ms, reachable_population := reachable,
         avg_competitor_distance := avg,
         huff_score := ms / max reachable 1 * 100 }

end

noncomputable section

/-- On `Except`, `pure` is `Except.ok`. -/
@[simp] theorem exceptPure {α : Type} (x : α) :
    (pure x : Except String α) = Except.ok x := rfl

/-- The floored distance `if d = 0 then 0.001 else d` is positive whenever
the raw distance is nonnegative. -/
theorem floored_pos {d : ℝ} (hd : 0 ≤ d) :
    0 < (if d = 0 then (1/1000 : ℝ) else d) := by
  by_cases h : d = 0
  · rw [if_pos h]
    norm_num
  · rw [if_neg h]
    exact lt_of_le_of_ne hd (Ne.symm h)

/-- The floored distance is never zero. -/
theorem floored_ne_zero (d : ℝ) : (if d = 0 then (1/1000 : ℝ) else d) ≠ 0 := by
  by_cases h : d = 0
  · rw [if_pos h]
    norm_num
  · rw [if_neg h]
    exact h

/-- With no competitors the total attractiveness equals the store's own
attractiveness, which is positive for a positive store size, so
`calculate_probability` returns exactly 1.0 (for any exponents). -/
theorem prob_no_competitors (alpha beta s d : ℝ) (hs : 0 < s) (hd : 0 ≤ d) :
    calculate_probability alpha beta s d [] = Except.ok 1 := by
  have hdpos := floored_pos hd
  have hden : 0 < (if d = 0 then (1/1000 : ℝ) else d) ^ beta :=
    Real.rpow_pos_of_pos hdpos beta
  have hattr : 0 < s ^ alpha / (if d = 0 then (1/1000 : ℝ) else d) ^ beta :=
    div_pos (Real.rpow_pos_of_pos hs alpha) hden
  simp only [calculate_probability, pydiv, if_neg (ne_of_gt hden),
    exceptBind_ok, List.foldlM_nil, exceptPure, if_neg (ne_of_gt hattr)]
  rw [div_self (ne_of_gt hattr)]

/-! ## Claim C5 (zero competitors) -/

/-- C5 counterexample: with `store_size = 0` (at the default exponents
α = 1, β = 2) the attractiveness and hence the total attractiveness is 0, so
`calculate_probability` with an empty competitor list returns 0.0, not 1.0 —
the claim fails for `store_size = 0`. -/
theorem C5_counterexample :
    calculate_probability 1 2 0 1 [] = Except.ok 0 ∧
    (Except.ok (0 : ℝ) : Except String ℝ) ≠ Except.ok 1 := by
  constructor
  · have h1 : ¬ ((1:ℝ) = 0) := by norm_num
    have hden : ((1:ℝ) ^ (2:ℝ)) ≠ 0 := by
      rw [Real.rpow_two]
      norm_num
    simp only [calculate_probability, pydiv, if_neg h1, if_neg hden,
      exceptBind_ok, List.foldlM_nil, exceptPure]
    rw [Real.rpow_one, Real.rpow_two]
    norm_num
  · simp only [ne_eq, Except.ok.injEq]
    norm_num

/-- C5 amended: with zero competitors `calculate_probability` returns exactly
1.0 for every positive store size and every nonnegative distance (for any
exponents α, β); for `store_size = 0` the total attractiveness is 0 and the
result is 0.0 instead (see the counterexample). -/
theorem C5_amended (alpha beta store_size distance : ℝ)
    (hs : 0 < store_size) (hd : 0 ≤ distance) :
    calculate_probability alpha beta store_size distance [] = Except.ok 1 :=
  prob_no_competitors alpha beta store_size distance hs hd

/-- C5 witness: the amended monopoly rule at α = 1, β = 2, store size 0.5,
distance 3 km. -/
theorem C5_witness :
    calculate_probability 1 2 (1/2) 3 [] = Except.ok 1 :=
  C5_amended 1 2 (1/2) 3 (by norm_num) (by norm_num)

/-! ## Claim C10 (defaults and guarded division) -/

/-- The competitor loop of `calculate_probability` depends on each entry only
through its `compTerm`. -/
theorem foldlM_compTerm_congr (alpha beta : ℝ) :
    ∀ c1 c2 : List CompEntry,
    c1.map (compTerm alpha beta) = c2.map (compTerm alpha beta) →
    ∀ a : ℝ,
    (c1.foldlM (fun acc comp => do
      let t ← compTerm alpha beta comp
      pure (acc + t)) a) =
    (c2.foldlM (fun acc comp => do
      let t ← compTerm alpha beta comp
      pure (acc + t)) a) := by
  intro c1
  induction c1 with
  | nil =>
    intro c2 h a
    cases c2 with
    | nil => rfl
    | cons y ys => simp at h
  | cons x xs ih =>
    intro c2 h a
    cases c2 with
    | nil => simp at h
    | cons y ys =>
      simp only [List.map_cons, List.cons.injEq] at h
      obtain ⟨hxy, hrest⟩ := h
      simp only [List.foldlM_cons]
      rw [hxy]
      cases hy : compTerm alpha beta y with
      | error e => simp [hy]
      | ok t =>
        simp only [hy, exceptBind_ok, exceptPure]
        exact ih ys hrest (a + t)

/-- `calculate_probability` depends on the competitor list only through the
per-entry `compTerm` values. -/
theorem calculate_probability_congr (alpha beta s d : ℝ)
    (c1 c2 : List CompEntry)
    (h : c1.map (compTerm alpha beta) = c2.map (compTerm alpha beta)) :
    calculate_probability alpha beta s d c1 =
      calculate_probability alpha beta s d c2 := by
  simp only [calculate_probability]
  cases pydiv (s ^ alpha) ((if d = 0 then (1/1000 : ℝ) else d) ^ beta) with
  | error e => rfl
  | ok attr =>
    simp only [exceptBind_ok]
    rw [foldlM_compTerm_congr alpha beta c1 c2 h attr]

/-- At the default exponents α = 1, β = 2 every competitor term succeeds:
its denominator is the square of the floored (hence nonzero) distance. -/
theorem compTerm_isOk (comp : CompEntry) :
    ∃ t, compTerm 1 2 comp = Except.ok t := by
  have hne : ((if comp.distance.getD 999 = 0 then (1/1000 : ℝ)
      else comp.distance.getD 999)) ^ (2:ℝ) ≠ 0 := by
    rw [Real.rpow_two]
    exact pow_ne_zero 2 (floored_ne_zero _)
  refine ⟨comp.size.getD (1/2) ^ (1:ℝ) /
    (if comp.distance.getD 999 = 0 then (1/1000 : ℝ)
      else comp.distance.getD 999) ^ (2:ℝ), ?_⟩
  simp only [compTerm, pydiv, if_neg hne]

/-- At the default exponents the competitor loop always succeeds. -/
theorem foldlM_compTerm_isOk :
    ∀ (comps : List CompEntry) (a : ℝ),
    ∃ t, (comps.foldlM (fun acc comp => do
      let t ← compTerm 1 2 comp
      pure (acc + t)) a) = Except.ok t := by
  intro comps
  induction comps with
  | nil =>
    intro a
    exact ⟨a, by simp⟩
  | cons x xs ih =>
    intro a
    obtain ⟨t, ht⟩ := compTerm_isOk x
    obtain ⟨u, hu⟩ := ih (a + t)
    refine ⟨u, ?_⟩
    simp only [List.foldlM_cons, ht, exceptBind_ok, exceptPure]
    exact hu

/-- C10: `calculate_probability` is total over competitor entries with
missing keys, and its divisions are always guarded: an entry missing its
`distance` key behaves exactly as one 999 km away, an entry missing its
`size` key exactly as one of size 0.5, a competitor distance of exactly 0
exactly as the floored 0.001 km, the store's own zero distance is floored
the same way, and (at the default exponents α = 1, β = 2) every call
returns `ok` — no division by zero is ever attempted. -/
theorem C10_defaults_and_totality (alpha beta store_size distance : ℝ) :
    (∀ (pre post : List CompEntry) (osize : Option ℝ),
      calculate_probability alpha beta store_size distance
          (pre ++ { size := osize, distance := none } :: post) =
        calculate_probability alpha beta store_size distance
          (pre ++ { size := osize, distance := some 999 } :: post)) ∧
    (∀ (pre post : List CompEntry) (odist : Option ℝ),
      calculate_probability alpha beta store_size distance
          (pre ++ { size := none, distance := odist } :: post) =
        calculate_probability alpha beta store_size distance
          (pre ++ { size := some (1/2), distance := odist } :: post)) ∧
    (∀ (pre post : List CompEntry) (osize : Option ℝ),
      calculate_probability alpha beta store_size distance
          (pre ++ { size := osize, distance := some 0 } :: post) =
        calculate_probability alpha beta store_size distance
          (pre ++ { size := osize, distance := some (1/1000) } :: post)) ∧
    (∀ comps : List CompEntry,
      calculate_probability alpha beta store_size 0 comps =
        calculate_probability alpha beta store_size (1/1000) comps) ∧
    (∀ comps : List CompEntry, ∃ p,
      calculate_probability 1 2 store_size distance comps = Except.ok p) := by
  refine ⟨?_, ?_, ?_, ?_, ?_⟩
  · intro pre post osize
    apply calculate_probability_congr
    simp only [List.map_append, List.map_cons]
    rfl
  · intro pre post odist
    apply calculate_probability_congr
    simp only [List.map_append, List.map_cons]
    rfl
  · intro pre post osize
    apply calculate_probability_congr
    simp only [List.map_append, List.map_cons]
    have hterm : compTerm alpha beta { size := osize, distance := some 0 } =
        compTerm alpha beta { size := osize, distance := some (1/1000) } := by
      simp only [compTerm, Option.getD_some]
      norm_num
    rw [hterm]
  · intro comps
    simp only [calculate_probability]
    norm_num
  · intro comps
    have hne : ((if distance = 0 then (1/1000 : ℝ) else distance)) ^ (2:ℝ) ≠ 0 := by
      rw [Real.rpow_two]
      exact pow_ne_zero 2 (floored_ne_zero _)
    obtain ⟨t, ht⟩ := foldlM_compTerm_isOk comps
      (store_size ^ (1:ℝ) / (if distance = 0 then (1/1000 : ℝ) else distance) ^ (2:ℝ))
    simp only [exceptPure] at ht
    simp only [calculate_probability, pydiv, if_neg hne, exceptBind_ok, exceptPure,
      ht]
    by_cases h0 : t = 0
    · exact ⟨0, by rw [if_pos h0]⟩
    · refine ⟨store_size ^ (1:ℝ) /
        (if distance = 0 then (1/1000 : ℝ) else distance) ^ (2:ℝ) / t, ?_⟩
      rw [if_neg h0, if_neg h0]

/-! ## Claim C3 (ranges of the Huff model outputs) -/

/-- Haversine distances are nonnegative (the arcsine of a nonnegative
argument is nonnegative). -/
theorem haversine_nonneg (p q : ℝ × ℝ) : 0 ≤ haversine_distance p q := by
  simp only [haversine_distance]
  exact mul_nonneg
    (mul_nonneg (by norm_num) (Real.arcsin_nonneg.mpr (Real.sqrt_nonneg _)))
    (by norm_num)

/-- The haversine distance from a point to itself is 0. -/
theorem haversine_self (p : ℝ × ℝ) : haversine_distance p p = 0 := by
  simp [haversine_distance, radians]

/-- A competitor term with nonnegative (defaulted) size and distance
succeeds and is nonnegative. -/
theorem compTerm_nonneg (alpha beta : ℝ) (comp : CompEntry)
    (hsz : 0 ≤ comp.size.getD (1/2)) (hdz : 0 ≤ comp.distance.getD 999) :
    ∃ t, compTerm alpha beta comp = Except.ok t ∧ 0 ≤ t := by
  have hpos : 0 < (if comp.distance.getD 999 = 0 then (1/1000 : ℝ)
      else comp.distance.getD 999) := floored_pos hdz
  have hden := Real.rpow_pos_of_pos hpos beta
  refine ⟨comp.size.getD (1/2) ^ alpha /
      (if comp.distance.getD 999 = 0 then (1/1000 : ℝ)
        else comp.distance.getD 999) ^ beta, ?_, ?_⟩
  · simp only [compTerm, pydiv, if_neg (ne_of_gt hden)]
  · exact div_nonneg (Real.rpow_nonneg hsz alpha) hden.le

/-- The competitor loop started at a nonnegative accumulator succeeds and
never decreases the accumulator when every entry has nonnegative size and
distance. -/
theorem foldlM_compTerm_bounds (alpha beta : ℝ) :
    ∀ comps : List CompEntry,
    (∀ e ∈ comps, 0 ≤ e.size.getD (1/2) ∧ 0 ≤ e.distance.getD 999) →
    ∀ a : ℝ,
    ∃ t, (comps.foldlM (fun acc comp => do
      let t ← compTerm alpha beta comp
      pure (acc + t)) a) = Except.ok t ∧ a ≤ t := by
  intro comps
  induction comps with
  | nil =>
    intro _ a
    exact ⟨a, by simp, le_refl a⟩
  | cons x xs ih =>
    intro hmem a
    obtain ⟨t, ht, htn⟩ := compTerm_nonneg alpha beta x
      (hmem x (by simp)).1 (hmem x (by simp)).2
    obtain ⟨u, hu, hau⟩ := ih (fun e he => hmem e (by simp [he])) (a + t)
    refine ⟨u, ?_, by linarith⟩
    simp only [List.foldlM_cons, ht, exceptBind_ok, exceptPure]
    exact hu

/-- Huff probabilities lie in [0, 1]: for nonnegative store size and
distance, and competitor entries whose (defaulted) sizes and distances are
nonnegative, `calculate_probability` succeeds with a value in [0, 1]. -/
theorem calculate_probability_bounds (alpha beta s d : ℝ)
    (comps : List CompEntry) (hs : 0 ≤ s) (hd : 0 ≤ d)
    (hc : ∀ e ∈ comps, 0 ≤ e.size.getD (1/2) ∧ 0 ≤ e.distance.getD 999) :
    ∃ p, calculate_probability alpha beta s d comps = Except.ok p ∧
      0 ≤ p ∧ p ≤ 1 := by
  have hdpos := floored_pos hd
  have hden : 0 < (if d = 0 then (1/1000 : ℝ) else d) ^ beta :=
    Real.rpow_pos_of_pos hdpos beta
  have hattrn : 0 ≤ s ^ alpha / (if d = 0 then (1/1000 : ℝ) else d) ^ beta :=
    div_nonneg (Real.rpow_nonneg hs alpha) hden.le
  obtain ⟨t, ht, hat⟩ := foldlM_compTerm_bounds alpha beta comps hc
    (s ^ alpha / (if d = 0 then (1/1000 : ℝ) else d) ^ beta)
  simp only [exceptPure] at ht
  simp only [calculate_probability, pydiv, if_neg (ne_of_gt hden),
    exceptBind_ok, exceptPure, ht]
  by_cases h0 : t = 0
  · exact ⟨0, by rw [if_pos h0], le_refl 0, by norm_num⟩
  · have htpos : 0 < t := lt_of_le_of_ne (le_trans hattrn hat) (Ne.symm h0)
    refine ⟨s ^ alpha / (if d = 0 then (1/1000 : ℝ) else d) ^ beta / t,
      ?_, div_nonneg hattrn htpos.le, ?_⟩
    · rw [if_neg h0, if_neg h0]
    · exact (div_le_one htpos).mpr hat

/-- Every entry produced by `competitorDistances` carries a nonnegative
(haversine) distance and, when the source sizes are nonnegative, a
nonnegative size. -/
theorem competitorDistances_nonneg (dp : ℝ × ℝ) (comps : List Competitor)
    (hc : ∀ c ∈ comps, 0 ≤ c.size.getD (1/2)) :
    ∀ e ∈ competitorDistances dp comps,
      0 ≤ e.size.getD (1/2) ∧ 0 ≤ e.distance.getD 999 := by
  intro e he
  rw [competitorDistances, List.mem_filterMap] at he
  obtain ⟨c, hcmem, hce⟩ := he
  cases hl : c.location with
  | none =>
    rw [hl] at hce
    simp at hce
  | some lc =>
    rw [hl] at hce
    simp only [Option.map_some', Option.some.injEq] at hce
    rw [← hce]
    exact ⟨by simpa using hc c hcmem, by simpa using haversine_nonneg dp lc⟩

/-- The market-share loop: starting from a nonnegative accumulator it
succeeds and moves the accumulator up by at most the sum of the involved
demand weights. -/
theorem market_fold_bounds (alpha beta : ℝ) (loc : ℝ × ℝ) (s : ℝ)
    (comps : List Competitor) (hs : 0 ≤ s)
    (hc : ∀ c ∈ comps, 0 ≤ c.size.getD (1/2)) :
    ∀ l : List ((ℝ × ℝ) × ℝ), (∀ pw ∈ l, 0 ≤ pw.2) → ∀ a : ℝ,
    ∃ m, (l.foldlM (fun acc dpw => do
      let p ← calculate_probability alpha beta s
        (haversine_distance dpw.1 loc) (competitorDistances dpw.1 comps)
      pure (acc + p * dpw.2)) a) = Except.ok m ∧
      a ≤ m ∧ m ≤ a + (l.map (fun pw => pw.2)).sum := by
  intro l
  induction l with
  | nil =>
    intro _ a
    exact ⟨a, by simp, le_refl a, by simp⟩
  | cons x xs ih =>
    intro hmem a
    have hx2 : 0 ≤ x.2 := hmem x (by simp)
    obtain ⟨p, hp, hp0, hp1⟩ := calculate_probability_bounds alpha beta s
      (haversine_distance x.1 loc) (competitorDistances x.1 comps) hs
      (haversine_nonneg x.1 loc) (competitorDistances_nonneg x.1 comps hc)
    obtain ⟨m, hm, ham, hub⟩ := ih (fun e he => hmem e (by simp [he]))
      (a + p * x.2)
    refine ⟨m, ?_, ?_, ?_⟩
    · simp only [List.foldlM_cons, hp, exceptBind_ok, exceptPure]
      exact hm
    · nlinarith
    · have hpx : p * x.2 ≤ x.2 := by nlinarith
      simp only [List.map_cons, List.sum_cons]
      linarith

/-- Market shares are population-equivalents: for equal-length demand arrays
with nonnegative weights, `calculate_market_share` succeeds with a value
between 0 and the total demand weight. -/
theorem market_share_bounds (alpha beta : ℝ) (loc : ℝ × ℝ) (s : ℝ)
    (dps : List (ℝ × ℝ)) (ws : List ℝ) (comps : List Competitor)
    (hs : 0 ≤ s) (hlen : dps.length = ws.length) (hw : ∀ w ∈ ws, 0 ≤ w)
    (hc : ∀ c ∈ comps, 0 ≤ c.size.getD (1/2)) :
    ∃ m, calculate_market_share alpha beta loc s dps ws comps = Except.ok m ∧
      0 ≤ m ∧ m ≤ ws.sum := by
  have hzmem : ∀ pw ∈ dps.zip ws, 0 ≤ pw.2 :=
    fun pw hpw => hw pw.2 (List.of_mem_zip hpw).2
  obtain ⟨m, hm, h0, hub⟩ :=
    market_fold_bounds alpha beta loc s comps hs hc (dps.zip ws) hzmem 0
  have hsnd : ((dps.zip ws).map (fun pw => pw.2)) = ws :=
    List.map_snd_zip dps ws hlen.ge
  rw [hsnd] at hub
  exact ⟨m, hm, h0, by linarith⟩

/-- Evaluation of `analyze_location` once the market share is known. -/
theorem analyze_location_eq (alpha beta : ℝ) (loc : ℝ × ℝ) (s : ℝ)
    (dps : List (ℝ × ℝ)) (ws : List ℝ) (comps : List Competitor) (m : ℝ)
    (hm : calculate_market_share alpha beta loc s dps ws comps = Except.ok m) :
    analyze_location alpha beta loc s dps ws comps = Except.ok
      { market_share := m,
        reachable_population := ((dps.zip ws).map (fun dpw =>
          if haversine_distance dpw.1 loc ≤ 10 then dpw.2 else 0)).sum,
        avg_competitor_distance :=
          (if comps.filterMap (fun comp =>
              comp.location.map (fun lc => haversine_distance loc lc)) = []
            then (999 : ℝ)
            else (comps.filterMap (fun comp =>
                comp.location.map (fun lc => haversine_distance loc lc))).sum /
              (comps.filterMap (fun comp =>
                comp.location.map (fun lc => haversine_distance loc lc))).length),
        huff_score := m / max (((dps.zip ws).map (fun dpw =>
          if haversine_distance dpw.1 loc ≤ 10 then dpw.2 else 0)).sum) 1 * 100 } := by
  simp only [analyze_location, hm, exceptBind_ok, exceptPure]

/-- C3 amended: all Huff probabilities lie in [0,1] (for nonnegative store
size, distance and competitor sizes/distances), but the market share
returned by `calculate_market_share` is a population-equivalent — bounded by
the total demand weight, not by 1 — and `analyze_location` propagates it,
with a nonnegative reachable population and a nonnegative `huff_score`
(which is a 0-100-style percentage, likewise not bounded by 1). -/
theorem C3_amended :
    (∀ (alpha beta s d : ℝ) (comps : List CompEntry), 0 ≤ s → 0 ≤ d →
      (∀ e ∈ comps, 0 ≤ e.size.getD (1/2) ∧ 0 ≤ e.distance.getD 999) →
      ∃ p, calculate_probability alpha beta s d comps = Except.ok p ∧
        0 ≤ p ∧ p ≤ 1) ∧
    (∀ (alpha beta : ℝ) (loc : ℝ × ℝ) (s : ℝ) (dps : List (ℝ × ℝ))
      (ws : List ℝ) (comps : List Competitor), 0 ≤ s →
      dps.length = ws.length → (∀ w ∈ ws, 0 ≤ w) →
      (∀ c ∈ comps, 0 ≤ c.size.getD (1/2)) →
      ∃ m, calculate_market_share alpha beta loc s dps ws comps = Except.ok m ∧
        0 ≤ m ∧ m ≤ ws.sum) ∧
    (∀ (alpha beta : ℝ) (loc : ℝ × ℝ) (s : ℝ) (dps : List (ℝ × ℝ))
      (ws : List ℝ) (comps : List Competitor), 0 ≤ s →
      dps.length = ws.length → (∀ w ∈ ws, 0 ≤ w) →
      (∀ c ∈ comps, 0 ≤ c.size.getD (1/2)) →
      ∃ r, analyze_location alpha beta loc s dps ws comps = Except.ok r ∧
        0 ≤ r.market_share ∧ r.market_share ≤ ws.sum ∧
        0 ≤ r.reachable_population ∧ 0 ≤ r.huff_score) := by
  refine ⟨calculate_probability_bounds, market_share_bounds, ?_⟩
  intro alpha beta loc s dps ws comps hs hlen hw hc
  obtain ⟨m, hm, h0, hub⟩ :=
    market_share_bounds alpha beta loc s dps ws comps hs hlen hw hc
  have hreach : 0 ≤ ((dps.zip ws).map (fun dpw =>
      if haversine_distance dpw.1 loc ≤ 10 then dpw.2 else 0)).sum := by
    apply List.sum_nonneg
    intro x hx
    rw [List.mem_map] at hx
    obtain ⟨pw, hpw, hval⟩ := hx
    rw [← hval]
    by_cases hcase : haversine_distance pw.1 loc ≤ 10
    · rw [if_pos hcase]
      exact hw pw.2 (List.of_mem_zip hpw).2
    · rw [if_neg hcase]
  refine ⟨_, analyze_location_eq alpha beta loc s dps ws comps m hm,
    h0, hub, hreach, ?_⟩
  exact mul_nonneg
    (div_nonneg h0 (le_trans zero_le_one (le_max_right _ 1))) (by norm_num)

/-- C3 counterexample: a single demand point of weight 1000 sitting on the
store location, with no competitors, gives probability 1 and hence
`calculate_market_share` = 1000 — a market share far outside [0,1], refuting
the claimed invariant. -/
theorem C3_counterexample :
    calculate_market_share 1 2 ((0:ℝ), (0:ℝ)) (1/2)
        [((0:ℝ), (0:ℝ))] [(1000:ℝ)] [] = Except.ok 1000 ∧
    ¬ ((1000:ℝ) ≤ 1) := by
  refine ⟨?_, by norm_num⟩
  have hp : calculate_probability 1 2 (1/2)
      (haversine_distance ((0:ℝ), (0:ℝ)) ((0:ℝ), (0:ℝ)))
      (competitorDistances ((0:ℝ), (0:ℝ)) []) = Except.ok 1 := by
    rw [haversine_self]
    exact prob_no_competitors 1 2 (1/2) 0 (by norm_num) (le_refl 0)
  simp only [calculate_market_share, List.zip_cons_cons, List.zip_nil_right,
    List.foldlM_cons, List.foldlM_nil, hp, exceptBind_ok, exceptPure]
  norm_num

/-- C3 witness: the amended range facts evaluated at concrete inputs — a
probability call with one competitor, and the market-share/analysis calls on
a single demand point of weight 1000. -/
theorem C3_witness :
    (∃ p, calculate_probability 1 2 (1/2) 3
        [{ size := some (3/4), distance := some 2 }] = Except.ok p ∧
      0 ≤ p ∧ p ≤ 1) ∧
    (∃ m, calculate_market_share 1 2 ((0:ℝ), (0:ℝ)) (1/2)
        [((0:ℝ), (0:ℝ))] [(1000:ℝ)] [] = Except.ok m ∧
      0 ≤ m ∧ m ≤ List.sum [(1000:ℝ)]) ∧
    (∃ r, analyze_location 1 2 ((0:ℝ), (0:ℝ)) (1/2)
        [((0:ℝ), (0:ℝ))] [(1000:ℝ)] [] = Except.ok r ∧
      0 ≤ r.market_share ∧ r.market_share ≤ List.sum [(1000:ℝ)] ∧
      0 ≤ r.reachable_population ∧ 0 ≤ r.huff_score) := by
  refine ⟨?_, ?_, ?_⟩
  · refine C3_amended.1 1 2 (1/2) 3 _ (by norm_num) (by norm_num) ?_
    intro e he
    rw [List.mem_singleton] at he
    subst he
    constructor <;> norm_num
  · refine C3_amended.2.1 1 2 ((0:ℝ), (0:ℝ)) (1/2) _ _ [] (by norm_num)
      (by simp) ?_ (by simp)
    intro x hx
    rw [List.mem_singleton] at hx
    subst hx
    norm_num
  · refine C3_amended.2.2 1 2 ((0:ℝ), (0:ℝ)) (1/2) _ _ [] (by norm_num)
      (by simp) ?_ (by simp)
    intro x hx
    rw [List.mem_singleton] at hx
    subst hx
    norm_num

end

/-! ## models/location_analysis.py : LocationAllocationAnalysis -/

/-- Squared Euclidean distance between two planar (lat, lon) points, exact
in ℚ.  `np.argmin` over a row of euclidean distances selects the same index
as over the squared distances (squaring is strictly monotone on nonnegative
reals), which keeps the assignment step of the refinement rational-valued. -/
def sqDist (a b : ℚ × ℚ) : ℚ := (a.1 - b.1)^2 + (a.2 - b.2)^2

/-- First index attaining the minimum of a list (`np.argmin` tie-breaking);
0 on the empty list (where numpy would raise instead — the refinement only
applies it to nonempty center lists). -/
def argmin : List ℚ → ℕ
  | [] => 0
  | [_] => 0
  | x :: y :: xs =>
    let k := argmin (y :: xs)
    if (y :: xs).getD k 0 < x then k + 1 else 0

/-- Minimum of a list of rationals (0 on the empty list). -/
def listMinQ : List ℚ → ℚ
  | [] => 0
  | [x] => x
  | x :: y :: xs => min x (listMinQ (y :: xs))

/-- The assignment step of `_refine_p_median`: index of the nearest current
center (`np.argmin` over the `cdist` row of the demand point). -/
def nearestIdx (p : ℚ × ℚ) (cs : List (ℚ × ℚ)) : ℕ :=
  argmin (cs.map (sqDist p))

/-- The demand points (paired with their weights) assigned to center `j`. -/
def clusterOf (pws : List ((ℚ × ℚ) × ℚ)) (cs : List (ℚ × ℚ)) (j : ℕ) :
    List ((ℚ × ℚ) × ℚ) :=
  pws.filter (fun pw => decide (nearestIdx pw.1 cs = j))

/-- One iteration of `_refine_p_median`: assign every demand point to its
nearest center, then replace each center with a nonempty cluster by the
weight-weighted centroid of its cluster, keeping centers whose cluster is
empty.  (The source loops `for i in range(self.n_facilities)` over the
`n_facilities` centers produced by K-Means; here the center list carries its
own length.) -/
def stepCenters (pws : List ((ℚ × ℚ) × ℚ)) (cs : List (ℚ × ℚ)) :
    List (ℚ × ℚ) :=
  (List.range cs.length).map (fun j =>
    let cl := clusterOf pws cs j
    if 0 < cl.length then
      ((cl.map (fun pw => pw.2 * pw.1.1)).sum / (cl.map (fun pw => pw.2)).sum,
       (cl.map (fun pw => pw.2 * pw.1.2)).sum / (cl.map (fun pw => pw.2)).sum)
    else cs.getD j (0, 0))

/-- One scalar comparison of `np.allclose(a, b, atol=1e-6)` with numpy's
default `rtol = 1e-5`: `|x - y| <= atol + rtol*|y|`. -/
def closeQ (x y : ℚ) : Bool := decide (|x - y| ≤ 1/1000000 + (1/100000) * |y|)

/-- `np.allclose(current_centers, new_centers, atol=1e-6)`, elementwise over
the (p, 2) coordinate arrays (the two lists always have equal shape in the
refinement loop). -/
def allclose (a b : List (ℚ × ℚ)) : Bool :=
  (a.zip b).all (fun p => closeQ p.1.1 p.2.1 && closeQ p.1.2 p.2.2)

/-- The iteration of `_refine_p_median`: up to `fuel` (source: 50) rounds;
each round computes the updated centers and stops early — returning the
pre-update centers — when they are `allclose` to the current ones. -/
def refineLoop (pws : List ((ℚ × ℚ) × ℚ)) : ℕ → List (ℚ × ℚ) → List (ℚ × ℚ)
  | 0, cs => cs
  | fuel + 1, cs =>
    let new := stepCenters pws cs
    if allclose cs new then cs else refineLoop pws fuel new

/-- `LocationAllocationAnalysis._refine_p_median` (max_iterations = 50). -/
def refine_p_median (pws : List ((ℚ × ℚ) × ℚ)) (initial : List (ℚ × ℚ)) :
    List (ℚ × ℚ) :=
  refineLoop pws 50 initial

/-- Euclidean distance (`cdist(..., metric='euclidean')`), as a real. -/
noncomputable def distReal (a b : ℚ × ℚ) : ℝ := Real.sqrt ((sqDist a b : ℚ) : ℝ)

/-- Minimum of a nonempty list of reals (`distances.min(axis=1)`); junk 0 on
the empty list, where numpy would raise. -/
noncomputable def listMinR : List ℝ → ℝ
  | [] => 0
  | [x] => x
  | x :: y :: xs => min x (listMinR (y :: xs))

/-- `LocationAllocationAnalysis.calculate_total_weighted_distance`: the
P-Median objective — for each demand point the euclidean distance to the
nearest facility, times the point's weight, summed. -/
noncomputable def calculate_total_weighted_distance
    (facilities : List (ℚ × ℚ)) (demand_points : List (ℚ × ℚ))
    (weights : List ℚ) : ℝ :=
  ((demand_points.zip weights).map (fun pw =>
    (pw.2 : ℝ) * listMinR (facilities.map (fun f => distReal pw.1 f)))).sum

/-- The squared-distance analogue of the P-Median objective: the weighted
sum of squared euclidean distances from each demand point to its nearest
center.  This is the K-Means (Lloyd) objective that the centroid update of
`_refine_p_median` actually decreases. -/
def sqObjective (cs : List (ℚ × ℚ)) (pws : List ((ℚ × ℚ) × ℚ)) : ℚ :=
  (pws.map (fun pw => pw.2 * listMinQ (cs.map (sqDist pw.1)))).sum

/-- The input validation of `sklearn.cluster.KMeans.fit` — the only error
source inside `p_median_optimization`, whose own body contains no
validation: fitting raises `ValueError` when `n_clusters < 1` and when the
sample count is smaller than `n_clusters` (in particular on an empty demand
array).  Negative sample weights are not rejected by the fit. -/
def kmeansFitCheck (nClusters : ℤ) (nSamples : ℕ) : Except String Unit :=
  if nClusters < 1 then Except.error "ValueError: n_clusters must be >= 1"
  else if (nSamples : ℤ) < nClusters then
    Except.error "ValueError: n_samples should be >= n_clusters"
  else Except.ok ()

/-- `LocationAllocationAnalysis.p_median_optimization`.  The K-Means centers
themselves (k-means++ with a fixed random state) are an external numeric
routine taken as an oracle parameter `kmeansCenters`; the fit call's input
validation is `kmeansFitCheck`.  The normalization `weights / weights.sum()`
is a numpy array expression: it allocates a new array and raises nothing (a
zero sum yields non-finite entries rather than an exception; in the rational
model division by a zero sum yields 0 — the theorems avoid that case). -/
def p_median_optimization
    (kmeansCenters : List (ℚ × ℚ) → List ℚ → ℤ → List (ℚ × ℚ))
    (n_facilities : ℤ) (demand_points : List (ℚ × ℚ))
    (weights : Option (List ℚ)) : Except String (List (ℚ × ℚ)) := do
  let ws := weights.getD (List.replicate demand_points.length 1)
  let ws1 := ws.map (fun w => w / ws.sum)
  kmeansFitCheck n_facilities demand_points.length
  let initial := kmeansCenters demand_points ws1 n_facilities
  pure (refineLoop (demand_points.zip ws1) 50 initial)

/-! ## Claim C4 (fail-fast validation of p_median_optimization) -/

/-- One unfolding of the refinement loop. -/
theorem refineLoop_succ (pws : List ((ℚ × ℚ) × ℚ)) (fuel : ℕ)
    (cs : List (ℚ × ℚ)) :
    refineLoop pws (fuel + 1) cs =
      if allclose cs (stepCenters pws cs) then cs
      else refineLoop pws fuel (stepCenters pws cs) := rfl

/-- A concrete stand-in for the K-Means oracle (its value is irrelevant to
whether the surrounding code raises). -/
def oracleC4 : List (ℚ × ℚ) → List ℚ → ℤ → List (ℚ × ℚ) :=
  fun _ _ _ => [(0, 0)]

/-- The demand/weight pairs of the C4 counterexample run, after the
normalization `weights / weights.sum()` of `[-1, 3]`. -/
def pwsC4 : List ((ℚ × ℚ) × ℚ) :=
  [(((0:ℚ), (0:ℚ)), -1/2), (((10:ℚ), (0:ℚ)), 3/2)]

/-- First refinement step of the C4 run. -/
theorem stepC4_first : stepCenters pwsC4 [((0:ℚ), (0:ℚ))] = [(15, 0)] := by
  have hcl : clusterOf pwsC4 [((0:ℚ), (0:ℚ))] 0 = pwsC4 := by
    simp [clusterOf, nearestIdx, argmin, pwsC4, List.filter]
  simp only [stepCenters]
  rw [show List.length [((0:ℚ), (0:ℚ))] = 1 from rfl,
    show List.range 1 = [0] from rfl]
  simp only [List.map_cons, List.map_nil, hcl]
  norm_num [pwsC4]

/-- Second refinement step of the C4 run: the centroid is a fixed point. -/
theorem stepC4_second : stepCenters pwsC4 [((15:ℚ), (0:ℚ))] = [(15, 0)] := by
  have hcl : clusterOf pwsC4 [((15:ℚ), (0:ℚ))] 0 = pwsC4 := by
    simp [clusterOf, nearestIdx, argmin, pwsC4, List.filter]
  simp only [stepCenters]
  rw [show List.length [((15:ℚ), (0:ℚ))] = 1 from rfl,
    show List.range 1 = [0] from rfl]
  simp only [List.map_cons, List.map_nil, hcl]
  norm_num [pwsC4]

/-- The first step moves the center far outside the `allclose` tolerance. -/
theorem allcloseC4_first :
    allclose [((0:ℚ), (0:ℚ))] [((15:ℚ), (0:ℚ))] = false := by
  simp only [allclose, List.zip_cons_cons, List.zip_nil_right, List.all_cons,
    List.all_nil, closeQ, Bool.and_true]
  rw [Bool.and_eq_false_iff]
  left
  rw [decide_eq_false_iff_not]
  norm_num [abs_le]

/-- The second step is `allclose` to its input, so the loop stops. -/
theorem allcloseC4_second :
    allclose [((15:ℚ), (0:ℚ))] [((15:ℚ), (0:ℚ))] = true := by
  simp only [allclose, List.zip_cons_cons, List.zip_nil_right, List.all_cons,
    List.all_nil, closeQ, Bool.and_true]
  rw [Bool.and_eq_true]
  constructor <;> (rw [decide_eq_true_eq]; norm_num [abs_le])

/-- C4 counterexample: with the negative weight −1 supplied (weights
`[-1, 3]`, two demand points, p = 1) `p_median_optimization` raises nothing:
the negative weight silently passes the K-Means fit, is normalized to −1/2,
and the call returns ok with the refined center `(15, 0)` — refuting the
claim that any negative supplied weight raises an error. -/
theorem C4_counterexample :
    ((-1 : ℚ) < 0) ∧
    p_median_optimization oracleC4 1 [((0:ℚ), (0:ℚ)), ((10:ℚ), (0:ℚ))]
        (some [-1, 3]) = Except.ok [(15, 0)] := by
  refine ⟨by norm_num, ?_⟩
  have hws : ([(-1 : ℚ), 3].map (fun w => w / List.sum [(-1 : ℚ), 3])) =
      [-1/2, 3/2] := by
    norm_num
  have hcheck : kmeansFitCheck 1 2 = Except.ok () := by
    rw [kmeansFitCheck, if_neg (by norm_num), if_neg (by norm_num)]
  have hzip : (([((0:ℚ), (0:ℚ)), ((10:ℚ), (0:ℚ))]).zip [-1/2, 3/2]) =
      pwsC4 := by
    simp [pwsC4]
  simp only [p_median_optimization, Option.getD_some, oracleC4]
  rw [hws, show List.length [((0:ℚ), (0:ℚ)), ((10:ℚ), (0:ℚ))] = 2 from rfl,
    hcheck]
  simp only [exceptBind_ok, exceptPure, hzip]
  rw [show (50 : ℕ) = 49 + 1 from rfl, refineLoop_succ, stepC4_first,
    allcloseC4_first]
  rw [if_neg (by simp)]
  rw [show (49 : ℕ) = 48 + 1 from rfl, refineLoop_succ, stepC4_second,
    allcloseC4_second]
  rw [if_pos rfl]

/-- C4 amended: `p_median_optimization` does raise (via the K-Means fit
validation — its own body validates nothing) for an empty demand array and
for a non-positive facility count, but supplied weights are never
validated: negative weights are silently normalized and used (see the
counterexample). -/
theorem C4_amended
    (kc : List (ℚ × ℚ) → List ℚ → ℤ → List (ℚ × ℚ)) (nf : ℤ)
    (dps : List (ℚ × ℚ)) (ws : Option (List ℚ)) :
    (dps = [] → ∃ e, p_median_optimization kc nf dps ws = Except.error e) ∧
    (nf ≤ 0 → ∃ e, p_median_optimization kc nf dps ws = Except.error e) := by
  constructor
  · intro hempty
    subst hempty
    by_cases hnf : nf < 1
    · refine ⟨"ValueError: n_clusters must be >= 1", ?_⟩
      simp only [p_median_optimization, kmeansFitCheck, if_pos hnf,
        exceptBind_error]
    · refine ⟨"ValueError: n_samples should be >= n_clusters", ?_⟩
      have hlt : ((List.length ([] : List (ℚ × ℚ)) : ℤ)) < nf := by
        simp only [List.length_nil, Nat.cast_zero]
        omega
      simp only [p_median_optimization, kmeansFitCheck, if_neg hnf,
        if_pos hlt, exceptBind_error]
  · intro hnf
    refine ⟨"ValueError: n_clusters must be >= 1", ?_⟩
    have hlt : nf < 1 := by omega
    simp only [p_median_optimization, kmeansFitCheck, if_pos hlt,
      exceptBind_error]

/-- C4 witness: the amended failure rules at concrete inputs — an empty
demand array with p = 3 raises, and p = 0 with one demand point raises. -/
theorem C4_witness :
    (∃ e, p_median_optimization oracleC4 3 [] none = Except.error e) ∧
    (∃ e, p_median_optimization oracleC4 0 [((0:ℚ), (0:ℚ))] none =
      Except.error e) :=
  ⟨(C4_amended oracleC4 3 [] none).1 rfl,
   (C4_amended oracleC4 0 [((0:ℚ), (0:ℚ))] none).2 (by norm_num)⟩

/-! ## Claim C2 (monotonicity across refinement iterations) -/

/-- Defining equation of `argmin` on lists of length at least two. -/
theorem argmin_cons2 (x y : ℚ) (xs : List ℚ) :
    argmin (x :: y :: xs) =
      if (y :: xs).getD (argmin (y :: xs)) 0 < x then argmin (y :: xs) + 1
      else 0 := rfl

/-- Defining equation of `listMinQ` on lists of length at least two. -/
theorem listMinQ_cons2 (x y : ℚ) (xs : List ℚ) :
    listMinQ (x :: y :: xs) = min x (listMinQ (y :: xs)) := rfl

/-- The argmin of a nonempty list is a valid index. -/
theorem argmin_lt_length : ∀ l : List ℚ, l ≠ [] → argmin l < l.length := by
  intro l
  induction l with
  | nil => intro h; exact absurd rfl h
  | cons x t ih =>
    intro _
    cases t with
    | nil => simp [argmin]
    | cons y xs =>
      rw [argmin_cons2]
      by_cases h : (y :: xs).getD (argmin (y :: xs)) 0 < x
      · rw [if_pos h]
        have := ih (List.cons_ne_nil y xs)
        simpa using Nat.succ_lt_succ this
      · rw [if_neg h]
        simp

/-- The list value at the argmin is the minimum. -/
theorem getD_argmin : ∀ l : List ℚ, l ≠ [] → l.getD (argmin l) 0 = listMinQ l := by
  intro l
  induction l with
  | nil => intro h; exact absurd rfl h
  | cons x t ih =>
    intro _
    cases t with
    | nil => rfl
    | cons y xs =>
      rw [argmin_cons2, listMinQ_cons2]
      have ihv := ih (List.cons_ne_nil y xs)
      by_cases h : (y :: xs).getD (argmin (y :: xs)) 0 < x
      · rw [if_pos h, List.getD_cons_succ, ihv]
        rw [ihv] at h
        exact (min_eq_right h.le).symm
      · rw [if_neg h, List.getD_cons_zero]
        rw [ihv] at h
        exact (min_eq_left (not_lt.mp h)).symm

/-- The minimum is a lower bound for every entry of the list. -/
theorem listMinQ_le_getD : ∀ (l : List ℚ) (j : ℕ), j < l.length →
    listMinQ l ≤ l.getD j 0 := by
  intro l
  induction l with
  | nil => intro j hj; simp at hj
  | cons x t ih =>
    intro j hj
    cases t with
    | nil =>
      cases j with
      | zero => simp [listMinQ]
      | succ j => simp at hj
    | cons y xs =>
      rw [listMinQ_cons2]
      cases j with
      | zero =>
        rw [List.getD_cons_zero]
        exact min_le_left _ _
      | succ j =>
        rw [List.getD_cons_succ]
        exact le_trans (min_le_right _ _) (ih j (by simpa using hj))

/-- Reading a mapped list through `getD` at a valid index. -/
theorem getD_map_pt (cs : List (ℚ × ℚ)) (f : ℚ × ℚ → ℚ) (j : ℕ)
    (hj : j < cs.length) : (cs.map f).getD j 0 = f (cs.getD j (0, 0)) := by
  rw [List.getD_eq_getElem _ _ (by simpa using hj), List.getElem_map,
    List.getD_eq_getElem _ _ hj]

/-- The nearest-center index is a valid index. -/
theorem nearestIdx_lt (p : ℚ × ℚ) (cs : List (ℚ × ℚ)) (h : cs ≠ []) :
    nearestIdx p cs < cs.length := by
  have := argmin_lt_length (cs.map (sqDist p)) (by simpa using h)
  simpa [nearestIdx] using this

/-- The minimum squared distance is attained at the nearest center. -/
theorem minQ_eq_nearest (p : ℚ × ℚ) (cs : List (ℚ × ℚ)) (h : cs ≠ []) :
    listMinQ (cs.map (sqDist p)) =
      sqDist p (cs.getD (nearestIdx p cs) (0, 0)) := by
  rw [← getD_argmin (cs.map (sqDist p)) (by simpa using h)]
  exact getD_map_pt cs (sqDist p) _ (nearestIdx_lt p cs h)

/-- The minimum squared distance is a lower bound for the squared distance
to any center. -/
theorem minQ_le_center (p : ℚ × ℚ) (cs : List (ℚ × ℚ)) (j : ℕ)
    (hj : j < cs.length) :
    listMinQ (cs.map (sqDist p)) ≤ sqDist p (cs.getD j (0, 0)) := by
  rw [← getD_map_pt cs (sqDist p) j hj]
  exact listMinQ_le_getD _ j (by simpa using hj)

/-- One refinement step keeps the number of centers. -/
theorem stepCenters_length (pws : List ((ℚ × ℚ) × ℚ)) (cs : List (ℚ × ℚ)) :
    (stepCenters pws cs).length = cs.length := by
  simp [stepCenters]

/-- The center produced at slot `j` by one refinement step. -/
theorem stepCenters_getD (pws : List ((ℚ × ℚ) × ℚ)) (cs : List (ℚ × ℚ))
    (j : ℕ) (hj : j < cs.length) :
    (stepCenters pws cs).getD j (0, 0) =
      if 0 < (clusterOf pws cs j).length then
        (((clusterOf pws cs j).map (fun pw => pw.2 * pw.1.1)).sum /
            ((clusterOf pws cs j).map (fun pw => pw.2)).sum,
         ((clusterOf pws cs j).map (fun pw => pw.2 * pw.1.2)).sum /
            ((clusterOf pws cs j).map (fun pw => pw.2)).sum)
      else cs.getD j (0, 0) := by
  simp only [stepCenters]
  rw [List.getD_eq_getElem _ _ (by simpa using hj), List.getElem_map,
    List.getElem_range]

/-- A weighted sum over demand points splits as a sum over the clusters of
any assignment with indices below `n`. -/
theorem sum_partition (n : ℕ) (g : (ℚ × ℚ) × ℚ → ℕ)
    (F : (ℚ × ℚ) × ℚ → ℕ → ℚ) :
    ∀ pws : List ((ℚ × ℚ) × ℚ), (∀ pw ∈ pws, g pw < n) →
    (pws.map (fun pw => F pw (g pw))).sum =
      ∑ j ∈ Finset.range n,
        ((pws.filter (fun pw => decide (g pw = j))).map (fun pw => F pw j)).sum := by
  intro pws
  induction pws with
  | nil => simp
  | cons x xs ih =>
    intro hmem
    have hx : g x < n := hmem x (by simp)
    have hih := ih (fun pw hpw => hmem pw (by simp [hpw]))
    simp only [List.map_cons, List.sum_cons]
    have hsplit : ∀ j, ((List.filter (fun pw => decide (g pw = j)) (x :: xs)).map
        (fun pw => F pw j)).sum =
        (if g x = j then F x j else 0) +
          ((xs.filter (fun pw => decide (g pw = j))).map (fun pw => F pw j)).sum := by
      intro j
      by_cases h : g x = j
      · rw [List.filter_cons_of_pos (by simp [h]), if_pos h]
        simp
      · rw [List.filter_cons_of_neg (by simp [h]), if_neg h]
        simp
    simp only [hsplit]
    rw [Finset.sum_add_distrib, Finset.sum_ite_eq,
      if_pos (Finset.mem_range.mpr hx), hih]

/-- Expansion of a weighted sum of squared deviations around any point. -/
theorem wsum_expand (cl : List ((ℚ × ℚ) × ℚ)) (v : (ℚ × ℚ) × ℚ → ℚ) (t : ℚ) :
    (cl.map (fun pw => pw.2 * (v pw - t) ^ 2)).sum =
      (cl.map (fun pw => pw.2 * v pw ^ 2)).sum -
        2 * t * (cl.map (fun pw => pw.2 * v pw)).sum +
        t ^ 2 * (cl.map (fun pw => pw.2)).sum := by
  induction cl with
  | nil => simp
  | cons x xs ih =>
    simp only [List.map_cons, List.sum_cons]
    rw [ih]
    ring

/-- With nonnegative weights summing to zero, every weighted sum over the
list vanishes. -/
theorem wsum_all_zero : ∀ cl : List ((ℚ × ℚ) × ℚ),
    (∀ pw ∈ cl, 0 ≤ pw.2) → (cl.map (fun pw => pw.2)).sum = 0 →
    ∀ v : (ℚ × ℚ) × ℚ → ℚ, (cl.map (fun pw => pw.2 * v pw)).sum = 0 := by
  intro cl
  induction cl with
  | nil => simp
  | cons x xs ih =>
    intro hw h0 v
    have hxw : 0 ≤ x.2 := hw x (by simp)
    have htail : 0 ≤ (xs.map (fun pw => pw.2)).sum := by
      apply List.sum_nonneg
      intro a ha
      rw [List.mem_map] at ha
      obtain ⟨pw, hpw, rfl⟩ := ha
      exact hw pw (by simp [hpw])
    simp only [List.map_cons, List.sum_cons] at h0 ⊢
    have hx0 : x.2 = 0 := by linarith
    have ht0 : (xs.map (fun pw => pw.2)).sum = 0 := by linarith
    rw [hx0, ih (fun pw hpw => hw pw (by simp [hpw])) ht0 v]
    ring

/-- The weighted mean minimizes the weighted sum of squared deviations
(one-dimensional weighted-variance bias identity). -/
theorem oneD_min (cl : List ((ℚ × ℚ) × ℚ)) (v : (ℚ × ℚ) × ℚ → ℚ)
    (hw : ∀ pw ∈ cl, 0 ≤ pw.2) (c : ℚ) :
    (cl.map (fun pw => pw.2 * (v pw -
        (cl.map (fun pw => pw.2 * v pw)).sum /
          (cl.map (fun pw => pw.2)).sum) ^ 2)).sum ≤
      (cl.map (fun pw => pw.2 * (v pw - c) ^ 2)).sum := by
  have hWnn : 0 ≤ (cl.map (fun pw => pw.2)).sum := by
    apply List.sum_nonneg
    intro a ha
    rw [List.mem_map] at ha
    obtain ⟨pw, hpw, rfl⟩ := ha
    exact hw pw hpw
  rw [wsum_expand cl v _, wsum_expand cl v c]
  set W := (cl.map (fun pw => pw.2)).sum with hW
  set Sx := (cl.map (fun pw => pw.2 * v pw)).sum with hSx
  by_cases hW0 : W = 0
  · have hSx0 : Sx = 0 := by
      rw [hSx]
      exact wsum_all_zero cl hw (by rw [← hW]; exact hW0) v
    rw [hW0, hSx0]
    simp
  · have hWpos : 0 < W := lt_of_le_of_ne hWnn (Ne.symm hW0)
    set m := Sx / W with hm
    have hkey : Sx = m * W := by
      rw [hm]
      field_simp
    rw [hkey]
    have h2 : 0 ≤ W * (m - c) ^ 2 := mul_nonneg hWpos.le (sq_nonneg _)
    nlinarith [h2]

/-- A weighted sum of squared planar distances splits coordinatewise. -/
theorem wsum_sqDist_split (cl : List ((ℚ × ℚ) × ℚ)) (m : ℚ × ℚ) :
    (cl.map (fun pw => pw.2 * sqDist pw.1 m)).sum =
      (cl.map (fun pw => pw.2 * (pw.1.1 - m.1) ^ 2)).sum +
      (cl.map (fun pw => pw.2 * (pw.1.2 - m.2) ^ 2)).sum := by
  induction cl with
  | nil => simp
  | cons x xs ih =>
    simp only [List.map_cons, List.sum_cons]
    rw [ih, sqDist]
    ring

/-- The weighted centroid of a cluster minimizes its weighted sum of squared
distances (Lloyd's update is optimal for the squared objective). -/
theorem centroid_min (cl : List ((ℚ × ℚ) × ℚ))
    (hw : ∀ pw ∈ cl, 0 ≤ pw.2) (c : ℚ × ℚ) :
    (cl.map (fun pw => pw.2 * sqDist pw.1
        ((cl.map (fun pw => pw.2 * pw.1.1)).sum / (cl.map (fun pw => pw.2)).sum,
         (cl.map (fun pw => pw.2 * pw.1.2)).sum / (cl.map (fun pw => pw.2)).sum))).sum ≤
      (cl.map (fun pw => pw.2 * sqDist pw.1 c)).sum := by
  rw [wsum_sqDist_split, wsum_sqDist_split]
  exact add_le_add (oneD_min cl (fun pw => pw.1.1) hw c.1)
    (oneD_min cl (fun pw => pw.1.2) hw c.2)

/-- One refinement step of `_refine_p_median` never increases the squared
objective (Lloyd's argument: reassignment only decreases it, and each
centroid update is optimal for its cluster). -/
theorem step_sq_le (pws : List ((ℚ × ℚ) × ℚ)) (cs : List (ℚ × ℚ))
    (hw : ∀ pw ∈ pws, 0 ≤ pw.2) (hcs : cs ≠ []) :
    sqObjective (stepCenters pws cs) pws ≤ sqObjective cs pws := by
  have hlen2 : (stepCenters pws cs).length = cs.length :=
    stepCenters_length pws cs
  have hA : sqObjective (stepCenters pws cs) pws ≤
      (pws.map (fun pw => pw.2 *
        sqDist pw.1 ((stepCenters pws cs).getD (nearestIdx pw.1 cs) (0, 0)))).sum := by
    apply List.sum_le_sum
    intro pw hpw
    have hj : nearestIdx pw.1 cs < (stepCenters pws cs).length := by
      rw [hlen2]
      exact nearestIdx_lt pw.1 cs hcs
    exact mul_le_mul_of_nonneg_left
      (minQ_le_center pw.1 (stepCenters pws cs) _ hj) (hw pw hpw)
  have hC : sqObjective cs pws =
      (pws.map (fun pw => pw.2 *
        sqDist pw.1 (cs.getD (nearestIdx pw.1 cs) (0, 0)))).sum := by
    have hpt : ∀ pw ∈ pws, pw.2 * listMinQ (cs.map (sqDist pw.1)) =
        pw.2 * sqDist pw.1 (cs.getD (nearestIdx pw.1 cs) (0, 0)) :=
      fun pw _ => by rw [minQ_eq_nearest pw.1 cs hcs]
    simp only [sqObjective]
    rw [List.map_congr_left hpt]
  have hg : ∀ pw ∈ pws, nearestIdx pw.1 cs < cs.length :=
    fun pw _ => nearestIdx_lt pw.1 cs hcs
  have hB := sum_partition cs.length (fun pw => nearestIdx pw.1 cs)
    (fun pw j => pw.2 * sqDist pw.1 ((stepCenters pws cs).getD j (0, 0))) pws hg
  have hD := sum_partition cs.length (fun pw => nearestIdx pw.1 cs)
    (fun pw j => pw.2 * sqDist pw.1 (cs.getD j (0, 0))) pws hg
  have hcluster : ∀ j ∈ Finset.range cs.length,
      ((pws.filter (fun pw => decide (nearestIdx pw.1 cs = j))).map
        (fun pw => pw.2 * sqDist pw.1 ((stepCenters pws cs).getD j (0, 0)))).sum ≤
      ((pws.filter (fun pw => decide (nearestIdx pw.1 cs = j))).map
        (fun pw => pw.2 * sqDist pw.1 (cs.getD j (0, 0)))).sum := by
    intro j hjr
    have hj : j < cs.length := Finset.mem_range.mp hjr
    have hwcl : ∀ pw ∈ clusterOf pws cs j, 0 ≤ pw.2 :=
      fun pw hpw => hw pw (List.mem_filter.mp hpw).1
    rw [stepCenters_getD pws cs j hj]
    by_cases hcl : 0 < (clusterOf pws cs j).length
    · rw [if_pos hcl]
      exact centroid_min (clusterOf pws cs j) hwcl (cs.getD j (0, 0))
    · rw [if_neg hcl]
  calc sqObjective (stepCenters pws cs) pws
      ≤ (pws.map (fun pw => pw.2 *
          sqDist pw.1 ((stepCenters pws cs).getD (nearestIdx pw.1 cs) (0, 0)))).sum := hA
    _ = ∑ j ∈ Finset.range cs.length,
          ((pws.filter (fun pw => decide (nearestIdx pw.1 cs = j))).map
            (fun pw => pw.2 * sqDist pw.1 ((stepCenters pws cs).getD j (0, 0)))).sum := hB
    _ ≤ ∑ j ∈ Finset.range cs.length,
          ((pws.filter (fun pw => decide (nearestIdx pw.1 cs = j))).map
            (fun pw => pw.2 * sqDist pw.1 (cs.getD j (0, 0)))).sum :=
        Finset.sum_le_sum hcluster
    _ = (pws.map (fun pw => pw.2 *
          sqDist pw.1 (cs.getD (nearestIdx pw.1 cs) (0, 0)))).sum := hD.symm
    _ = sqObjective cs pws := hC.symm

/-- C2 amended: the linear P-Median objective
`calculate_total_weighted_distance` is not monotone under the refinement
(see the counterexample); what the centroid update does decrease is the
squared objective — for every fixed instance with nonnegative weights, the
weighted sum of squared distances to the nearest center is monotonically
non-increasing across successive refinement iterations. -/
theorem C2_amended (demand : List (ℚ × ℚ)) (weights : List ℚ)
    (initial : List (ℚ × ℚ)) (k : ℕ)
    (hw : ∀ w ∈ weights, 0 ≤ w) (hcs : initial ≠ []) :
    sqObjective ((stepCenters (demand.zip weights))^[k + 1] initial)
        (demand.zip weights) ≤
      sqObjective ((stepCenters (demand.zip weights))^[k] initial)
        (demand.zip weights) := by
  have hwz : ∀ pw ∈ demand.zip weights, 0 ≤ pw.2 :=
    fun pw hpw => hw pw.2 (List.of_mem_zip hpw).2
  have hne : ∀ n : ℕ, (stepCenters (demand.zip weights))^[n] initial ≠ [] := by
    intro n
    induction n with
    | zero => simpa using hcs
    | succ n ih =>
      rw [Function.iterate_succ_apply']
      intro hcon
      have hl := stepCenters_length (demand.zip weights)
        ((stepCenters (demand.zip weights))^[n] initial)
      rw [hcon] at hl
      simp only [List.length_nil] at hl
      exact ih (List.length_eq_zero.mp hl.symm)
  rw [Function.iterate_succ_apply']
  exact step_sq_le _ _ hwz (hne k)

/-- The C2 counterexample instance: demand at (0,0) with weight 3 and at
(10,0) with weight 1, one facility initially at (0,0). -/
def demandC2 : List (ℚ × ℚ) := [(0, 0), (10, 0)]

/-- Weights of the C2 instance. -/
def weightsC2 : List ℚ := [3, 1]

/-- Initial center of the C2 instance. -/
def cs0C2 : List (ℚ × ℚ) := [(0, 0)]

/-- The zipped demand/weight pairs of the C2 instance. -/
def pwsC2 : List ((ℚ × ℚ) × ℚ) := [(((0:ℚ), (0:ℚ)), 3), (((10:ℚ), (0:ℚ)), 1)]

/-- The refinement step of the C2 instance moves the center to the weighted
centroid (5/2, 0). -/
theorem stepC2 : stepCenters pwsC2 cs0C2 = [(5/2, 0)] := by
  have hcl : clusterOf pwsC2 [((0:ℚ), (0:ℚ))] 0 = pwsC2 := by
    simp [clusterOf, nearestIdx, argmin, pwsC2, List.filter]
  simp only [stepCenters, cs0C2]
  rw [show List.length [((0:ℚ), (0:ℚ))] = 1 from rfl,
    show List.range 1 = [0] from rfl]
  simp only [List.map_cons, List.map_nil, hcl]
  norm_num [pwsC2]

/-- The moved center is far outside the `allclose` tolerance, so the
refinement loop really produces it as the next iterate. -/
theorem allcloseC2 : allclose cs0C2 (stepCenters pwsC2 cs0C2) = false := by
  rw [stepC2]
  simp only [cs0C2, allclose, List.zip_cons_cons, List.zip_nil_right,
    List.all_cons, List.all_nil, closeQ, Bool.and_true]
  rw [Bool.and_eq_false_iff]
  left
  rw [decide_eq_false_iff_not, show ((0:ℚ) - 5/2) = -(5/2) by norm_num,
    abs_neg, abs_of_nonneg (by norm_num : (0:ℚ) ≤ 5/2)]
  norm_num

/-- C2 counterexample: on the fixed instance `demandC2`/`weightsC2` with
initial center (0,0), the refinement's first iteration (which the loop
takes: the tolerance check fails) moves the center to (5/2, 0), and the
P-Median objective `calculate_total_weighted_distance` strictly increases
from 10 to 15 — it is not monotonically non-increasing. -/
theorem C2_counterexample :
    demandC2.zip weightsC2 = pwsC2 ∧
    stepCenters pwsC2 cs0C2 = [(5/2, 0)] ∧
    allclose cs0C2 (stepCenters pwsC2 cs0C2) = false ∧
    calculate_total_weighted_distance cs0C2 demandC2 weightsC2 = 10 ∧
    calculate_total_weighted_distance (stepCenters pwsC2 cs0C2)
      demandC2 weightsC2 = 15 ∧
    ¬ (calculate_total_weighted_distance (stepCenters pwsC2 cs0C2)
        demandC2 weightsC2 ≤
      calculate_total_weighted_distance cs0C2 demandC2 weightsC2) := by
  have hd1 : distReal ((0:ℚ), (0:ℚ)) ((0:ℚ), (0:ℚ)) = 0 := by
    rw [distReal, show sqDist ((0:ℚ), (0:ℚ)) ((0:ℚ), (0:ℚ)) = 0 by
      norm_num [sqDist]]
    simp
  have hd2 : distReal ((10:ℚ), (0:ℚ)) ((0:ℚ), (0:ℚ)) = 10 := by
    rw [distReal, show sqDist ((10:ℚ), (0:ℚ)) ((0:ℚ), (0:ℚ)) = 100 by
      norm_num [sqDist]]
    rw [show (((100:ℚ)):ℝ) = 10 ^ 2 by norm_num]
    exact Real.sqrt_sq (by norm_num)
  have hd3 : distReal ((0:ℚ), (0:ℚ)) ((5/2:ℚ), (0:ℚ)) = 5/2 := by
    rw [distReal, show sqDist ((0:ℚ), (0:ℚ)) ((5/2:ℚ), (0:ℚ)) = 25/4 by
      norm_num [sqDist]]
    rw [show (((25/4:ℚ)):ℝ) = (5/2) ^ 2 by norm_num]
    exact Real.sqrt_sq (by norm_num)
  have hd4 : distReal ((10:ℚ), (0:ℚ)) ((5/2:ℚ), (0:ℚ)) = 15/2 := by
    rw [distReal, show sqDist ((10:ℚ), (0:ℚ)) ((5/2:ℚ), (0:ℚ)) = 225/4 by
      norm_num [sqDist]]
    rw [show (((225/4:ℚ)):ℝ) = (15/2) ^ 2 by norm_num]
    exact Real.sqrt_sq (by norm_num)
  have htw0 : calculate_total_weighted_distance cs0C2 demandC2 weightsC2 = 10 := by
    simp only [calculate_total_weighted_distance, cs0C2, demandC2, weightsC2,
      List.zip_cons_cons, List.zip_nil_right, List.map_cons, List.map_nil,
      List.sum_cons, List.sum_nil, listMinR, hd1, hd2]
    norm_num
  have htw1 : calculate_total_weighted_distance [((5/2:ℚ), (0:ℚ))]
      demandC2 weightsC2 = 15 := by
    simp only [calculate_total_weighted_distance, demandC2, weightsC2,
      List.zip_cons_cons, List.zip_nil_right, List.map_cons, List.map_nil,
      List.sum_cons, List.sum_nil, listMinR, hd3, hd4]
    norm_num
  refine ⟨by simp [demandC2, weightsC2, pwsC2], stepC2, allcloseC2, htw0, ?_, ?_⟩
  · rw [stepC2]
    exact htw1
  · rw [stepC2, htw1, htw0]
    norm_num

/-- C2 witness: the amended squared-objective monotonicity applied to the
concrete counterexample instance at its first iteration. -/
theorem C2_witness :
    sqObjective ((stepCenters (demandC2.zip weightsC2))^[0 + 1] cs0C2)
        (demandC2.zip weightsC2) ≤
      sqObjective ((stepCenters (demandC2.zip weightsC2))^[0] cs0C2)
        (demandC2.zip weightsC2) := by
  refine C2_amended demandC2 weightsC2 cs0C2 0 ?_ (by simp [cs0C2])
  intro w hw
  simp only [weightsC2, List.mem_cons, List.mem_singleton,
    List.not_mem_nil, or_false] at hw
  rcases hw with rfl | rfl <;> norm_num

/-! ## Claim C9 (no mutation of caller-supplied inputs) -/

/-- Stateful rendering of `p_median_optimization` over a heap of ℚ-arrays
(cell `r` holds the array at reference `r`; allocation appends a cell).
The caller passes the reference of its weights array; the numpy expression
`weights = weights / weights.sum()` allocates a fresh array and rebinds the
local name to it — nothing writes to the caller's cell. -/
def p_median_state
    (kmeansCenters : List (ℚ × ℚ) → List ℚ → ℤ → List (ℚ × ℚ))
    (n_facilities : ℤ) (demand_points : List (ℚ × ℚ))
    (h : List (List ℚ)) (wRef : ℕ) :
    Except String (List (ℚ × ℚ)) × List (List ℚ) :=
  let ws := (h.get? wRef).getD []
  let h1 := h ++ [ws.map (fun w => w / ws.sum)]
  let ws1 := (h1.get? h.length).getD []
  match kmeansFitCheck n_facilities demand_points.length with
  | Except.error e => (Except.error e, h1)
  | Except.ok _ =>
    (Except.ok (refineLoop (demand_points.zip ws1) 50
      (kmeansCenters demand_points ws1 n_facilities)), h1)

/-- Stateful rendering of `rank_locations` over a heap of candidate tables
(each row is the candidate record plus the mutable `score` and `ranking`
columns).  `df = locations_df.copy()` allocates a fresh table; the two
column assignments are in-place writes — but to the fresh copy;
`sort_values(...).reset_index(...)` allocates again. -/
def rank_locations_state (w : ScoringWeights)
    (h : List (List (LocationData × Option ℚ × Option ℕ))) (dfRef : ℕ) :
    List (LocationData × Option ℚ × Option ℕ)
      × List (List (LocationData × Option ℚ × Option ℕ)) :=
  let h1 := h ++ [(h.get? dfRef).getD []]
  let r1 := h.length
  let scoredRows := ((h1.get? r1).getD []).map
    (fun row => (row.1, some (calculate_score w row.1), row.2.2))
  let h2 := h1.set r1 scoredRows
  let sortedRows := ((h2.get? r1).getD []).mergeSort
    (fun a b => decide (b.2.1.getD 0 ≤ a.2.1.getD 0))
  let h3 := h2 ++ [sortedRows]
  let r2 := h2.length
  let ranked := (((h3.get? r2).getD []).zip
    (List.range' 1 (((h3.get? r2).getD []).length))).map
    (fun rk => (rk.1.1, rk.1.2.1, some rk.2))
  let h4 := h3.set r2 ranked
  (ranked, h4)

/-- One candidate's `weighted_distance`
(`LocationAllocationAnalysis._calculate_weighted_distance_for_location`):
the demand-weighted sum of euclidean distances, in degrees. -/
noncomputable def weighted_distance_for_location (loc : ℚ × ℚ)
    (demand_points : List (ℚ × ℚ)) (weights : List ℚ) : ℝ :=
  ((demand_points.zip weights).map
    (fun pw => distReal loc pw.1 * (pw.2 : ℝ))).sum

/-- One candidate's reachable population
(`LocationAllocationAnalysis._calculate_reachable_population`, radius 5 km):
the demand weight within 5 km, converting degree distances at 111 km per
degree. -/
noncomputable def reachable_population_for_location (loc : ℚ × ℚ)
    (demand_points : List (ℚ × ℚ)) (weights : List ℚ) : ℝ :=
  ((demand_points.zip weights).map (fun pw =>
    if distReal loc pw.1 * 111 ≤ 5 then (pw.2 : ℝ) else 0)).sum

/-- Stateful rendering of `analyze_candidate_locations` over a heap of
candidate tables (each row: (lat, lon) plus the mutable `weighted_distance`
and `poblacion_alcanzable` columns).  The copy is allocated first; both
column assignments write to the copy only. -/
noncomputable def analyze_candidate_locations_state
    (demand_points : List (ℚ × ℚ)) (weights : List ℚ)
    (h : List (List ((ℚ × ℚ) × Option ℝ × Option ℝ))) (dfRef : ℕ) :
    List ((ℚ × ℚ) × Option ℝ × Option ℝ)
      × List (List ((ℚ × ℚ) × Option ℝ × Option ℝ)) :=
  let h1 := h ++ [(h.get? dfRef).getD []]
  let r1 := h.length
  let t1 := ((h1.get? r1).getD []).map (fun row =>
    (row.1, some (weighted_distance_for_location row.1 demand_points weights),
     row.2.2))
  let h2 := h1.set r1 t1
  let t2 := ((h2.get? r1).getD []).map (fun row =>
    (row.1, row.2.1,
     some (reachable_population_for_location row.1 demand_points weights)))
  let h3 := h2.set r1 t2
  (t2, h3)

/-- C9: none of the three public operations mutates its caller-supplied
input: after `p_median_optimization` the caller's weights array cell is
unchanged (normalization allocated a copy), and after `rank_locations` and
`analyze_candidate_locations` the caller's candidate-table cell is unchanged
(both enrich a fresh copy; their in-place column writes hit only the copy). -/
theorem C9_no_mutation :
    (∀ (kc : List (ℚ × ℚ) → List ℚ → ℤ → List (ℚ × ℚ)) (nf : ℤ)
      (dps : List (ℚ × ℚ)) (h : List (List ℚ)) (wRef : ℕ) (ws : List ℚ),
      h.get? wRef = some ws →
      (p_median_state kc nf dps h wRef).2.get? wRef = some ws) ∧
    (∀ (w : ScoringWeights)
      (h : List (List (LocationData × Option ℚ × Option ℕ))) (dfRef : ℕ)
      (t : List (LocationData × Option ℚ × Option ℕ)),
      h.get? dfRef = some t →
      (rank_locations_state w h dfRef).2.get? dfRef = some t) ∧
    (∀ (dps : List (ℚ × ℚ)) (ws : List ℚ)
      (h : List (List ((ℚ × ℚ) × Option ℝ × Option ℝ))) (dfRef : ℕ)
      (t : List ((ℚ × ℚ) × Option ℝ × Option ℝ)),
      h.get? dfRef = some t →
      (analyze_candidate_locations_state dps ws h dfRef).2.get? dfRef = some t) := by
  refine ⟨?_, ?_, ?_⟩
  · intro kc nf dps h wRef ws hread
    obtain ⟨hlt, -⟩ := List.get?_eq_some.mp hread
    simp only [p_median_state]
    cases kmeansFitCheck nf dps.length with
    | error e => rw [List.get?_append hlt]; exact hread
    | ok u => rw [List.get?_append hlt]; exact hread
  · intro w h dfRef t hread
    obtain ⟨hlt, -⟩ := List.get?_eq_some.mp hread
    simp only [rank_locations_state]
    have hne1 : h.length ≠ dfRef := Nat.ne_of_gt hlt
    rw [List.get?_set_ne _ _ (by
      simp only [List.length_set, List.length_append, List.length_singleton]
      omega)]
    rw [List.get?_append (by
      simp only [List.length_set, List.length_append, List.length_singleton]
      omega)]
    rw [List.get?_set_ne _ _ hne1, List.get?_append hlt]
    exact hread
  · intro dps ws h dfRef t hread
    obtain ⟨hlt, -⟩ := List.get?_eq_some.mp hread
    simp only [analyze_candidate_locations_state]
    have hne1 : h.length ≠ dfRef := Nat.ne_of_gt hlt
    rw [List.get?_set_ne _ _ hne1, List.get?_set_ne _ _ hne1,
      List.get?_append hlt]
    exact hread

/-- The caller-side weights array of the C9 witness. -/
def heapC9 : List (List ℚ) := [[5, 7]]

/-- The caller-side candidate table of the C9 witness for ranking. -/
def tableC9 : List (LocationData × Option ℚ × Option ℕ) := [({}, none, none)]

/-- The caller-side candidate table of the C9 witness for analysis. -/
def tableC9b : List ((ℚ × ℚ) × Option ℝ × Option ℝ) := [((1, 2), none, none)]

/-- C9 witness: the no-mutation guarantees at concrete one-cell heaps. -/
theorem C9_witness :
    (p_median_state oracleC4 1 [((0:ℚ), (0:ℚ))] heapC9 0).2.get? 0 =
      some [5, 7] ∧
    (rank_locations_state defaultWeights [tableC9] 0).2.get? 0 =
      some tableC9 ∧
    (analyze_candidate_locations_state [] [] [tableC9b] 0).2.get? 0 =
      some tableC9b :=
  ⟨C9_no_mutation.1 oracleC4 1 [((0:ℚ), (0:ℚ))] heapC9 0 [5, 7] rfl,
   C9_no_mutation.2.1 defaultWeights [tableC9] 0 tableC9 rfl,
   C9_no_mutation.2.2 [] [] [tableC9b] 0 tableC9b rfl⟩
